import Mathlib

/-!
Verification of the LedgerZero balance/projection engine (src/app.js).

Shallow embedding conventions:
- JS numbers that hold monetary amounts are modelled as rationals (ℚ); every
  arithmetic step of the engine is exact addition, subtraction,
  multiplication, division, min and max, so ℚ is faithful
  wherever the engine's own values are finite.  The only places where JS
  non-finite values can appear are modelled explicitly (see JsNumber below).
- JS strings are Lean Strings; ISO date strings are compared with the
  lexicographic order on String, which is what JS relational operators and
  localeCompare do on ASCII ISO dates.
- A JS Date value is modelled by its millisecond timestamp (Int); the three
  observationally different states of a stored date field (falsy, i.e. null /
  undefined / empty string; an unparseable string, i.e. an Invalid Date; a
  valid date) are the three constructors of JsDateValue.
- Fields read with a `|| 0` guard are modelled as plain ℚ (for a rational the
  guard only turns 0 into 0); `confidence ?? 60` keeps its Option since the
  default applies exactly to null/undefined.
- Array.prototype.reduce with (+) is List.map/List.sum, Array.prototype.filter
  is List.filter, a for-loop pushing into an accumulator is List.foldl.
-/

namespace LedgerZero

/-! ## Amount normalization: parseAmount (src/app.js lines 38-61)

`parseAmount` keeps only the characters [0-9.,+-] of its string input, picks
the later of the last '.' and the last ',' as the decimal separator, joins the
remaining groups, and hands the result to JS `Number(...)`. -/

/-- Characters kept by the cleaning step: the regex replace of
`/[^\d.,\-+]/g` with the empty string keeps exactly [0-9.,+-].
The preceding `String(s).trim()` only removes whitespace, which this filter
removes anyway, so the trim has no effect on the result. -/
def isKept (c : Char) : Bool := c.isDigit || c = '.' || c = ',' || c = '+' || c = '-'

/-- The two candidate separator characters, as matched by `/[.,]/g`. -/
def isSep (c : Char) : Bool := c = '.' || c = ','

def notSep (c : Char) : Bool := !(isSep c)

/-- Value of a digit string, most significant first (how `Number` reads the
integer and fraction digit blocks). -/
def digitsVal (l : List Char) : ℚ := l.foldl (fun a c => 10 * a + ((c.toNat - 48 : ℕ) : ℚ)) 0

def allDigits (l : List Char) : Bool := l.all Char.isDigit

/-- Helper for `String.prototype.split` on a single character: first chunk
plus remaining chunks. -/
def splitOnCharAux (c : Char) : List Char → List Char × List (List Char)
  | [] => ([], [])
  | x :: xs =>
    let r := splitOnCharAux c xs
    if x = c then ([], r.1 :: r.2) else (x :: r.1, r.2)

/-- `t.split(c)` for a one-character separator: always a nonempty list of
(possibly empty) chunks. -/
def splitOnChar (c : Char) (l : List Char) : List (List Char) :=
  (splitOnCharAux c l).1 :: (splitOnCharAux c l).2

/-- JS `Number(string)` restricted to the strings `parseAmount` can build:
characters among digits, '+', '-', '.', with at most one '.'.  The grammar is
an optional sign followed by `digits ['.' digits]` where at least one digit is
present; the empty string converts to 0; everything else is NaN (`none`).
Letters (so exponents, Infinity, hex) cannot occur: the cleaning step removed
them. -/
def jsUnsigned (l : List Char) : Option ℚ :=
  match splitOnChar '.' l with
  | [a] => if a ≠ [] ∧ allDigits a then some (digitsVal a) else none
  | [a, b] =>
    if (a ≠ [] ∨ b ≠ []) ∧ allDigits a ∧ allDigits b then
      some (digitsVal a + digitsVal b / (10 : ℚ) ^ b.length)
    else none
  | _ => none

def jsNum (l : List Char) : Option ℚ :=
  match l with
  | [] => some 0
  | c :: rest =>
    if c = '+' then jsUnsigned rest
    else if c = '-' then (jsUnsigned rest).map (fun q => -q)
    else jsUnsigned l

/-- `Number.isFinite(n) ? n : 0`: NaN collapses to 0.  (A several-hundred
digit literal would overflow a JS double to Infinity and also yield 0; in the
exact ℚ model such a literal keeps its value instead — the idealization every
other monetary computation here relies on.) -/
def jsNumOr0 (l : List Char) : ℚ :=
  match jsNum l with
  | some q => q
  | none => 0

/-- `String.prototype.lastIndexOf` for a single character: -1 if absent. -/
def lastIndexOf (c : Char) : List Char → Int
  | [] => -1
  | x :: xs =>
    let r := lastIndexOf c xs
    if 0 ≤ r then r + 1 else if x = c then 0 else -1

/-- src/app.js lines 38-61, string case.  The number case of the JS function
is `parseAmountJS` below. -/
def parseAmount (s : String) : ℚ :=
  if s = "" then 0
  else
    let t := s.data.filter isKept
    let lastDot := lastIndexOf '.' t
    let lastComma := lastIndexOf ',' t
    let decSep : Option Char :=
      if lastComma < lastDot then some '.'
      else if lastDot < lastComma then some ','
      else none
    match decSep with
    | some c =>
      let parts := splitOnChar c t
      let frac := parts.getLastD []
      let intPart := parts.dropLast.flatten.filter notSep
      jsNumOr0 (intPart ++ '.' :: frac)
    | none => jsNumOr0 (t.filter notSep)

/-- Modelled from the spec's wording for comparison (§4.1): the decimal
separator is whichever of '.'/',' occurs last in the cleaned string, all
other occurrences of either character are removed as grouping separators,
and the two halves around that last occurrence are parsed as a float. -/
def parseAmountSpec (s : String) : ℚ :=
  if s = "" then 0
  else
    let t := s.data.filter isKept
    if t.any isSep then
      let intPart := ((t.reverse.dropWhile notSep).tail).reverse
      let fracPart := (t.reverse.takeWhile notSep).reverse
      jsNumOr0 (intPart.filter notSep ++ '.' :: fracPart)
    else jsNumOr0 t

/-- A JS number: either an actual (finite) value, or one of the three
non-finite floats. -/
inductive JsNumber where
  | finite : ℚ → JsNumber
  | nan : JsNumber
  | inf : JsNumber
  | negInf : JsNumber
deriving DecidableEq

/-- The whole of src/app.js `parseAmount`, including the
`if (typeof s === "number") return s;` first line: a number-typed argument is
returned unchanged, without any finiteness check; only string-typed input goes
through the cleaning/parsing path (which always produces a finite value). -/
def parseAmountJS : JsNumber ⊕ String → JsNumber
  | .inl n => n
  | .inr s => .finite (parseAmount s)

/-! ## Data model (src/app.js object stores; only the fields the engine reads)

A stored date-like field has three observationally different states under
`d ? new Date(d) : null` followed by the `Number.isNaN(date.getTime())`
check: falsy (null / undefined / ""), an unparseable string (Invalid Date),
or a valid date identified by its millisecond timestamp. -/

inductive JsDateValue where
  | null : JsDateValue
  | invalid : JsDateValue
  | valid : Int → JsDateValue
deriving DecidableEq

structure Account where
  id : String
  type : String
  startingBalance : ℚ
deriving DecidableEq

/-- `date` is compared as a string and tested for truthiness only, so "" is a
faithful stand-in for every falsy value of the field. -/
structure Transaction where
  id : String
  type : String
  date : String
  accountId : String
  amount : ℚ
deriving DecidableEq

structure Debt where
  id : String
  direction : String
  status : String
  amount : ℚ
  dueDate : JsDateValue
  confidence : Option ℚ
deriving DecidableEq

structure Position where
  id : String
  qty : ℚ
  avgCost : ℚ
  currentValue : ℚ
deriving DecidableEq

structure Trade where
  id : String
  date : String
  result : String
  rMultiple : ℚ
deriving DecidableEq

structure Goal where
  id : String
  name : String
  type : String
  targetValue : Option ℚ
  status : String
  endDate : JsDateValue
deriving DecidableEq

/-- The two global settings `computeBalances` reads
(`state.horizonDays`, `state.includeConfidenceMin`). -/
structure Config where
  horizonDays : Int
  includeConfidenceMin : ℚ
deriving DecidableEq

structure BalanceReport where
  accounts : List Account
  txs : List Transaction
  debts : List Debt
  positions : List Position
  actualCash : ℚ
  cashInBank : ℚ
  expectedCash : ℚ
  riskAdjustedCash : ℚ
  investmentsCurrent : ℚ
  investmentsCost : ℚ
  openReceivablesTotal : ℚ
  openPayablesTotal : ℚ
  debtTotal : ℚ
  netWorth : ℚ
deriving DecidableEq

/-! ## Balance & projection engine: computeBalances (src/app.js lines 284-335) -/

/-- src/app.js line 29: `Math.max(a, Math.min(b, n))`. -/
def clamp (n a b : ℚ) : ℚ := max a (min b n)

def openReceivablesOf (debts : List Debt) : List Debt :=
  debts.filter (fun d => decide (d.direction = "receivable" ∧ d.status = "open"))

def openPayablesOf (debts : List Debt) : List Debt :=
  debts.filter (fun d => decide (d.direction = "payable" ∧ d.status = "open"))

/-- `new Date(today.getTime() + state.horizonDays*86400000)`, as milliseconds. -/
def horizonMs (today : Int) (horizonDays : Int) : Int := today + horizonDays * 86400000

/-- The filter body at src/app.js lines 304-308: a falsy or unparseable due
date is included unconditionally, a valid one is compared against the
horizon timestamp. -/
def dueWithinPred (horizon : Int) (d : Debt) : Bool :=
  match d.dueDate with
  | .null => true
  | .invalid => true
  | .valid ms => decide (ms ≤ horizon)

def dueWithinOf (horizon : Int) (debts : List Debt) : List Debt :=
  (openReceivablesOf debts).filter (dueWithinPred horizon)

/-- `d.confidence ?? 60`. -/
def effConfidence (d : Debt) : ℚ := d.confidence.getD 60

/-- `accounts.find(a=>a.id===t.accountId)?.type==="Banka"` — the account type
string in the source is the Turkish "Banka" (the spec's Bank type). -/
def bankResolved (accounts : List Account) (t : Transaction) : Bool :=
  match accounts.find? (fun a => decide (a.id = t.accountId)) with
  | some a => decide (a.type = "Banka")
  | none => false

def computeBalances (today : Int) (cfg : Config) (accounts : List Account)
    (txs : List Transaction) (debts : List Debt) (positions : List Position) :
    BalanceReport :=
  let actualCash := (accounts.map (fun a => a.startingBalance)).sum
    + (txs.map (fun t => t.amount)).sum
  let cashInBank :=
    ((accounts.filter (fun a => decide (a.type = "Banka"))).map
      (fun a => a.startingBalance)).sum
    + ((txs.filter (bankResolved accounts)).map (fun t => t.amount)).sum
  let openReceivables := openReceivablesOf debts
  let openPayables := openPayablesOf debts
  let horizon := horizonMs today cfg.horizonDays
  let dueWithin := dueWithinOf horizon debts
  let expectedIncluded :=
    dueWithin.filter (fun d => decide (cfg.includeConfidenceMin ≤ effConfidence d))
  let expectedCash := actualCash + (expectedIncluded.map (fun d => d.amount)).sum
  let riskAdjustedCash := actualCash
    + (dueWithin.map (fun d => d.amount * clamp (effConfidence d / 100) 0 1)).sum
  let investmentsCurrent := (positions.map (fun p => p.currentValue)).sum
  let investmentsCost := (positions.map (fun p => p.qty * p.avgCost)).sum
  let debtTotal := (openPayables.map (fun d => d.amount)).sum
  let netWorth := (actualCash + investmentsCurrent) - debtTotal
  { accounts := accounts, txs := txs, debts := debts, positions := positions,
    actualCash := actualCash, cashInBank := cashInBank,
    expectedCash := expectedCash, riskAdjustedCash := riskAdjustedCash,
    investmentsCurrent := investmentsCurrent, investmentsCost := investmentsCost,
    openReceivablesTotal := (openReceivables.map (fun d => d.amount)).sum,
    openPayablesTotal := (openPayables.map (fun d => d.amount)).sum,
    debtTotal := debtTotal, netWorth := netWorth }

/-! ## Period aggregators (src/app.js lines 337-373)

Both aggregators read the current calendar month's bounds from the clock
(`startOfMonthISO()` / `endOfMonthISO()`); they are passed here as the
`start` / `stop` ISO strings.  String comparison of ISO dates is their
chronological comparison. -/

structure MonthlyPnl where
  income : ℚ
  expense : ℚ
  net : ℚ
  periodStart : String
  periodEnd : String
deriving DecidableEq

/-- One iteration of the `for (const t of txs)` loop of computeMonthlyPnl:
skip on falsy date, out-of-range date, or transfer type; otherwise a
non-negative amount accrues to income and a negative one to expense as its
absolute value. -/
def pnlStep (start stop : String) (acc : ℚ × ℚ) (t : Transaction) : ℚ × ℚ :=
  if t.date = "" then acc
  else if t.date < start ∨ stop < t.date then acc
  else if t.type = "transfer" then acc
  else if 0 ≤ t.amount then (acc.1 + t.amount, acc.2)
  else (acc.1, acc.2 + |t.amount|)

def computeMonthlyPnl (start stop : String) (txs : List Transaction) : MonthlyPnl :=
  let p := txs.foldl (pnlStep start stop) (0, 0)
  { income := p.1, expense := p.2, net := p.1 - p.2,
    periodStart := start, periodEnd := stop }

structure TradeStats where
  total : ℕ
  wins : ℕ
  losses : ℕ
  bes : ℕ
  totalR : ℚ
  winRate : ℚ
  maxDrawdownR : ℚ
deriving DecidableEq

/-- `trades.filter(t=>t.date && t.date>=start && t.date<=end)`. -/
def monthTrades (start stop : String) (trades : List Trade) : List Trade :=
  trades.filter (fun t => decide (t.date ≠ "" ∧ start ≤ t.date ∧ t.date ≤ stop))

/-- Insertion of one trade in front of the first element whose date is not
smaller — the unique stable position. -/
def insertByDate (t : Trade) : List Trade → List Trade
  | [] => [t]
  | u :: us => if t.date ≤ u.date then t :: u :: us else u :: insertByDate t us

/-- `month.sort((a,b)=>(a.date||"").localeCompare(b.date||""))`:
Array.prototype.sort is a stable sort (ES2019), localeCompare on ASCII ISO
date strings agrees with the lexicographic String order, and a stable sort
for a total preorder has a unique result, so this stable insertion sort
computes exactly the JS result.  (`date` is a String here, so the `|| ""`
guard is the identity.) -/
def sortByDate : List Trade → List Trade
  | [] => []
  | t :: ts => insertByDate t (sortByDate ts)

/-- One iteration of the drawdown loop (src/app.js lines 366-371), on the
state (cum, peak, dd): `cum += r; if (cum > peak) peak = cum;
dd = Math.min(dd, cum - peak);`. -/
def ddStep (s : ℚ × ℚ × ℚ) (r : ℚ) : ℚ × ℚ × ℚ :=
  let cum := s.1 + r
  let peak := if s.2.1 < cum then cum else s.2.1
  (cum, peak, min s.2.2 (cum - peak))

def computeTradeStats (start stop : String) (trades : List Trade) : TradeStats :=
  let month := monthTrades start stop trades
  let total := month.length
  let wins := (month.filter (fun t => decide (t.result = "win"))).length
  let bes := (month.filter (fun t => decide (t.result = "be"))).length
  let losses := (month.filter (fun t => decide (t.result = "loss"))).length
  let totalR := (month.map (fun t => t.rMultiple)).sum
  let winRate : ℚ := if total = 0 then 0 else ((wins : ℚ) / (total : ℚ)) * 100
  let finState := (sortByDate month).foldl (fun s t => ddStep s t.rMultiple) (0, 0, 0)
  { total := total, wins := wins, losses := losses, bes := bes,
    totalR := totalR, winRate := winRate, maxDrawdownR := finState.2.2 }

/-! ## Goal progress & alerts (src/app.js lines 421-484) -/

/-- The switch over `goal.type` resolving the current value. -/
def goalCurrent (g : Goal) (balances : BalanceReport) (monthly : MonthlyPnl) : Option ℚ :=
  match g.type with
  | "cashInBank" => some balances.cashInBank
  | "actualCash" => some balances.actualCash
  | "investments" => some balances.investmentsCurrent
  | "netWorth" => some balances.netWorth
  | "monthlyExpenseCap" => some monthly.expense
  | _ => none

/-- src/app.js lines 466-484.  Truthiness of the finite number `target` is
`target ≠ 0`; the source repeats the identical expression
`target ? (cur/target)*100 : 0` in both the monthlyExpenseCap branch and the
default branch, which is kept here. -/
def goalProgress (g : Goal) (balances : BalanceReport) (monthly : MonthlyPnl) : Option ℚ :=
  match g.targetValue with
  | none => none
  | some target =>
    match goalCurrent g balances monthly with
    | none => none
    | some cur =>
      if g.type = "monthlyExpenseCap" then
        some (if target = 0 then 0 else cur / target * 100)
      else
        some (if target = 0 then 0 else cur / target * 100)

inductive AlertKind where
  | warning : AlertKind
  | notice : AlertKind
deriving DecidableEq

/-- `if (g.endDate) { const ed = new Date(g.endDate);
if (!Number.isNaN(ed.getTime()) && ed < now) continue; }` — only a valid
end date strictly in the past expires a goal. -/
def goalExpired (now : Int) (g : Goal) : Bool :=
  match g.endDate with
  | .null => false
  | .invalid => false
  | .valid ms => decide (ms < now)

/-- One iteration of the `for (const g of goals)` loop of renderAlerts; an
alert is modelled by its kind (warning vs notice) and the goal's name. -/
def alertStep (now : Int) (balances : BalanceReport) (monthly : MonthlyPnl)
    (alerts : List (AlertKind × String)) (g : Goal) : List (AlertKind × String) :=
  if g.status = "archived" then alerts
  else if goalExpired now g then alerts
  else
    match goalProgress g balances monthly with
    | none => alerts
    | some pct =>
      if g.type = "monthlyExpenseCap" then
        if 80 ≤ pct then alerts ++ [(AlertKind.warning, g.name)] else alerts
      else if pct < 80 then alerts
      else alerts ++ [(AlertKind.notice, g.name)]

def renderAlertsList (now : Int) (balances : BalanceReport) (monthly : MonthlyPnl)
    (goals : List Goal) : List (AlertKind × String) :=
  goals.foldl (alertStep now balances monthly) []

/-- `alerts.slice(0,3)`: what the alert box renders. -/
def displayedAlerts (now : Int) (balances : BalanceReport) (monthly : MonthlyPnl)
    (goals : List Goal) : List (AlertKind × String) :=
  (renderAlertsList now balances monthly goals).take 3

/-! ## Backup export / import (src/app.js lines 1806-1824)

An IndexedDB object store is modelled as the list its `getAll` returns:
records in primary-key order, keys pairwise distinct.  `put` is a keyed
upsert, `clear` is the empty list. -/

structure Category where
  id : String
  name : String
deriving DecidableEq

structure Instrument where
  id : String
  symbol : String
deriving DecidableEq

structure Snapshot where
  id : String
  date : String
deriving DecidableEq

structure MetaRec where
  key : String
  value : String
deriving DecidableEq

structure Store where
  accounts : List Account
  transactions : List Transaction
  categories : List Category
  instruments : List Instrument
  positions : List Position
  debts : List Debt
  trades : List Trade
  goals : List Goal
  snapshots : List Snapshot
  meta : List MetaRec
deriving DecidableEq

def DB_VERSION : ℕ := 1

/-- The backup object: one array per collection plus `_exportedAt` and
`_version`. -/
structure Dump where
  data : Store
  exportedAtMs : Int
  version : ℕ
deriving DecidableEq

/-- exportAll: `idbGetAll` of every collection into one object, plus the
export timestamp and the schema version. -/
def exportAll (s : Store) (nowMs : Int) : Dump :=
  { data := s, exportedAtMs := nowMs, version := DB_VERSION }

/-- IndexedDB `put` on a keyed store: replace the record with the same key,
else insert. -/
def putRecord {α : Type} (key : α → String) (l : List α) (x : α) : List α :=
  if l.any (fun y => decide (key y = key x)) then
    l.map (fun y => if key y = key x then x else y)
  else l ++ [x]

/-- importAll's per-collection body: `idbClear` then `idbPut` of every
record of the dumped array, in order. -/
def importCollection {α : Type} (key : α → String) (arr : List α) : List α :=
  arr.foldl (putRecord key) []

/-- importAll (the trailing `loadCurrency()` only refreshes a UI default and
touches no collection). -/
def importAll (d : Dump) : Store :=
  { accounts := importCollection (fun a => a.id) d.data.accounts,
    transactions := importCollection (fun t => t.id) d.data.transactions,
    categories := importCollection (fun c => c.id) d.data.categories,
    instruments := importCollection (fun i => i.id) d.data.instruments,
    positions := importCollection (fun p => p.id) d.data.positions,
    debts := importCollection (fun d0 => d0.id) d.data.debts,
    trades := importCollection (fun t => t.id) d.data.trades,
    goals := importCollection (fun g => g.id) d.data.goals,
    snapshots := importCollection (fun sn => sn.id) d.data.snapshots,
    meta := importCollection (fun m => m.key) d.data.meta }

/-- computeBalances reads exactly the accounts, transactions, debts and
positions collections of the store. -/
def computeBalancesStore (today : Int) (cfg : Config) (s : Store) : BalanceReport :=
  computeBalances today cfg s.accounts s.transactions s.debts s.positions

/-- The key-uniqueness invariant IndexedDB guarantees for every reachable
database state (each store is keyed on `id`, meta on `key`). -/
def StoreKeysNodup (s : Store) : Prop :=
  (s.accounts.map (fun a => a.id)).Nodup ∧
  (s.transactions.map (fun t => t.id)).Nodup ∧
  (s.categories.map (fun c => c.id)).Nodup ∧
  (s.instruments.map (fun i => i.id)).Nodup ∧
  (s.positions.map (fun p => p.id)).Nodup ∧
  (s.debts.map (fun d => d.id)).Nodup ∧
  (s.trades.map (fun t => t.id)).Nodup ∧
  (s.goals.map (fun g => g.id)).Nodup ∧
  (s.snapshots.map (fun sn => sn.id)).Nodup ∧
  (s.meta.map (fun m => m.key)).Nodup

/-! ## Spec-side drawdown semantics (§4.3)

`peakOf p` is the maximum, over every prefix of `p` (the empty one included,
so the peak starts at 0), of the cumulative R; `ddSpec rs` is the minimum
over every prefix of (its cumulative R minus its peak), again starting at 0
via the empty prefix. -/

def peakOf (p : List ℚ) : ℚ := (p.inits.map (fun q => q.sum)).foldl max 0

def ddSpec (rs : List ℚ) : ℚ := (rs.inits.map (fun p => p.sum - peakOf p)).foldl min 0

lemma inits_concat {α : Type} (l : List α) (x : α) :
    (l ++ [x]).inits = l.inits ++ [l ++ [x]] := by
  simp [List.inits_append]

lemma foldl_max_concat (l : List ℚ) (a x : ℚ) :
    (l ++ [x]).foldl max a = max (l.foldl max a) x := by
  simp [List.foldl_append]

lemma foldl_min_concat (l : List ℚ) (a x : ℚ) :
    (l ++ [x]).foldl min a = min (l.foldl min a) x := by
  simp [List.foldl_append]

lemma peakOf_nil : peakOf [] = 0 := by
  simp [peakOf]

lemma ddSpec_nil : ddSpec [] = 0 := by
  simp [ddSpec, peakOf]

lemma peakOf_concat (l : List ℚ) (x : ℚ) :
    peakOf (l ++ [x]) = max (peakOf l) ((l ++ [x]).sum) := by
  unfold peakOf
  rw [inits_concat, List.map_append]
  simp only [List.map_cons, List.map_nil]
  rw [foldl_max_concat]

lemma ddSpec_concat (l : List ℚ) (x : ℚ) :
    ddSpec (l ++ [x]) = min (ddSpec l) ((l ++ [x]).sum - peakOf (l ++ [x])) := by
  unfold ddSpec
  rw [inits_concat, List.map_append]
  simp only [List.map_cons, List.map_nil]
  rw [foldl_min_concat]

/-- The single-pass fold of the source computes, in one traversal: the total
cumulative R, the running peak starting at 0, and the running minimum of
(cum − peak) starting at 0. -/
lemma ddFold_eq (rs : List ℚ) :
    rs.foldl ddStep (0, 0, 0) = (rs.sum, peakOf rs, ddSpec rs) := by
  induction rs using List.reverseRecOn with
  | nil => simp [peakOf_nil, ddSpec_nil]
  | append_singleton l x ih =>
    rw [List.foldl_append, ih]
    have hpeak : peakOf (l ++ [x]) = max (peakOf l) (l.sum + x) := by
      rw [peakOf_concat]; simp
    have hmax : (if peakOf l < l.sum + x then l.sum + x else peakOf l)
        = max (peakOf l) (l.sum + x) := by
      rcases lt_or_ge (peakOf l) (l.sum + x) with h | h
      · simp [h, max_eq_right h.le]
      · simp [not_lt.mpr h, max_eq_left h]
    simp only [List.foldl_cons, List.foldl_nil, ddStep]
    refine Prod.ext (by simp) (Prod.ext ?_ ?_)
    · simpa [hmax] using hpeak.symm
    · show min (ddSpec l) (l.sum + x - _) = ddSpec (l ++ [x])
      rw [ddSpec_concat, hpeak, hmax]
      simp

/-- Along the pass, the dd component of the fold state never increases. -/
lemma ddFold_dd_le (l : List ℚ) (s : ℚ × ℚ × ℚ) :
    (l.foldl ddStep s).2.2 ≤ s.2.2 := by
  induction l generalizing s with
  | nil => exact le_refl _
  | cons r l ih =>
    calc ((r :: l).foldl ddStep s).2.2 = (l.foldl ddStep (ddStep s r)).2.2 := by rfl
    _ ≤ (ddStep s r).2.2 := ih _
    _ ≤ s.2.2 := min_le_left _ _

/-! ## Stable sort lemmas for sortByDate -/

lemma insertByDate_perm (t : Trade) (l : List Trade) :
    (insertByDate t l).Perm (t :: l) := by
  induction l with
  | nil => exact List.Perm.refl _
  | cons u us ih =>
    by_cases h : t.date ≤ u.date
    · simp [insertByDate, h]
    · simp only [insertByDate, h, if_false]
      exact (ih.cons u).trans (List.Perm.swap t u us)

lemma sortByDate_perm (l : List Trade) : (sortByDate l).Perm l := by
  induction l with
  | nil => exact List.Perm.refl _
  | cons t ts ih =>
    exact (insertByDate_perm t (sortByDate ts)).trans (ih.cons t)

lemma mem_insertByDate {x t : Trade} {l : List Trade} :
    x ∈ insertByDate t l ↔ x = t ∨ x ∈ l := by
  rw [(insertByDate_perm t l).mem_iff]
  simp

lemma insertByDate_pairwise (t : Trade) (l : List Trade)
    (h : l.Pairwise (fun a b => a.date ≤ b.date)) :
    (insertByDate t l).Pairwise (fun a b => a.date ≤ b.date) := by
  induction l with
  | nil => simp [insertByDate]
  | cons u us ih =>
    rcases List.pairwise_cons.mp h with ⟨hu, hus⟩
    by_cases hle : t.date ≤ u.date
    · simp only [insertByDate, hle, if_true]
      refine List.pairwise_cons.mpr ⟨?_, h⟩
      intro x hx
      rcases List.mem_cons.mp hx with rfl | hx
      · exact hle
      · exact hle.trans (hu x hx)
    · simp only [insertByDate, hle, if_false]
      refine List.pairwise_cons.mpr ⟨?_, ih hus⟩
      intro x hx
      rcases mem_insertByDate.mp hx with rfl | hx
      · exact (not_le.mp hle).le
      · exact hu x hx

lemma sortByDate_pairwise (l : List Trade) :
    (sortByDate l).Pairwise (fun a b => a.date ≤ b.date) := by
  induction l with
  | nil => exact List.Pairwise.nil
  | cons t ts ih => exact insertByDate_pairwise t (sortByDate ts) ih

lemma insertByDate_cons (t u : Trade) (us : List Trade) :
    insertByDate t (u :: us)
      = if t.date ≤ u.date then t :: u :: us else u :: insertByDate t us := rfl

lemma insertByDate_filter_eq (t : Trade) (l : List Trade) (d : String)
    (h : t.date = d) :
    (insertByDate t l).filter (fun u => decide (u.date = d))
      = t :: l.filter (fun u => decide (u.date = d)) := by
  induction l with
  | nil =>
    show List.filter _ [t] = [t]
    simp only [List.filter_cons, List.filter_nil, decide_eq_true_eq]
    rw [if_pos h]
  | cons u us ih =>
    by_cases hle : t.date ≤ u.date
    · rw [insertByDate_cons, if_pos hle]
      simp only [List.filter_cons, decide_eq_true_eq]
      rw [if_pos h]
    · have hne : ¬ u.date = d := by
        intro hd
        exact hle (le_of_eq (h.trans hd.symm))
      rw [insertByDate_cons, if_neg hle]
      simp only [List.filter_cons, decide_eq_true_eq]
      rw [if_neg hne, if_neg hne, ih]

lemma insertByDate_filter_ne (t : Trade) (l : List Trade) (d : String)
    (h : ¬ t.date = d) :
    (insertByDate t l).filter (fun u => decide (u.date = d))
      = l.filter (fun u => decide (u.date = d)) := by
  induction l with
  | nil =>
    show List.filter _ [t] = []
    simp only [List.filter_cons, List.filter_nil, decide_eq_true_eq]
    rw [if_neg h]
  | cons u us ih =>
    by_cases hle : t.date ≤ u.date
    · rw [insertByDate_cons, if_pos hle]
      simp only [List.filter_cons, decide_eq_true_eq]
      rw [if_neg h]
    · rw [insertByDate_cons, if_neg hle]
      simp only [List.filter_cons, decide_eq_true_eq]
      by_cases hu : u.date = d
      · rw [if_pos hu, if_pos hu, ih]
      · rw [if_neg hu, if_neg hu, ih]

/-- Stability of the sort: for every date value, the records carrying that
date appear in the sorted list in exactly their original order. -/
lemma sortByDate_filter (l : List Trade) (d : String) :
    (sortByDate l).filter (fun u => decide (u.date = d))
      = l.filter (fun u => decide (u.date = d)) := by
  induction l with
  | nil => rfl
  | cons t ts ih =>
    by_cases h : t.date = d
    · rw [show sortByDate (t :: ts) = insertByDate t (sortByDate ts) from rfl,
        insertByDate_filter_eq t _ d h, ih]
      simp only [List.filter_cons, decide_eq_true_eq]
      rw [if_pos h]
    · rw [show sortByDate (t :: ts) = insertByDate t (sortByDate ts) from rfl,
        insertByDate_filter_ne t _ d h, ih]
      simp only [List.filter_cons, decide_eq_true_eq]
      rw [if_neg h]

/-! ## Spec-side characterization of computeMonthlyPnl (§4.3) -/

/-- A transaction that the month's income total counts: dated, inside the
period, not a transfer, with non-negative amount. -/
def pnlIncomeTx (start stop : String) (t : Transaction) : Bool :=
  decide (t.date ≠ "" ∧ start ≤ t.date ∧ t.date ≤ stop ∧ t.type ≠ "transfer" ∧ 0 ≤ t.amount)

/-- A transaction that the month's expense total counts (by absolute value):
dated, inside the period, not a transfer, with negative amount. -/
def pnlExpenseTx (start stop : String) (t : Transaction) : Bool :=
  decide (t.date ≠ "" ∧ start ≤ t.date ∧ t.date ≤ stop ∧ t.type ≠ "transfer" ∧ t.amount < 0)

lemma pnl_foldl (start stop : String) (txs : List Transaction) (i e : ℚ) :
    txs.foldl (pnlStep start stop) (i, e)
      = (i + ((txs.filter (pnlIncomeTx start stop)).map (fun t => t.amount)).sum,
         e + ((txs.filter (pnlExpenseTx start stop)).map (fun t => |t.amount|)).sum) := by
  induction txs generalizing i e with
  | nil => simp
  | cons t ts ih =>
    rw [List.foldl_cons]
    by_cases h1 : t.date = ""
    · have hstep : pnlStep start stop (i, e) t = (i, e) := by simp [pnlStep, h1]
      have hp : pnlIncomeTx start stop t = false :=
        decide_eq_false (fun hc => hc.1 h1)
      have hn : pnlExpenseTx start stop t = false :=
        decide_eq_false (fun hc => hc.1 h1)
      rw [hstep, ih]
      simp [List.filter_cons, hp, hn]
    · by_cases h2 : t.date < start ∨ stop < t.date
      · have hstep : pnlStep start stop (i, e) t = (i, e) := by
          unfold pnlStep
          rw [if_neg h1, if_pos h2]
        have hrange : ¬ (start ≤ t.date ∧ t.date ≤ stop) := by
          rcases h2 with h | h
          · exact fun hc => absurd hc.1 (not_le.mpr h)
          · exact fun hc => absurd hc.2 (not_le.mpr h)
        have hp : pnlIncomeTx start stop t = false :=
          decide_eq_false (fun hc => hrange ⟨hc.2.1, hc.2.2.1⟩)
        have hn : pnlExpenseTx start stop t = false :=
          decide_eq_false (fun hc => hrange ⟨hc.2.1, hc.2.2.1⟩)
        rw [hstep, ih]
        simp [List.filter_cons, hp, hn]
      · have hge : start ≤ t.date := not_lt.mp (fun hlt => h2 (Or.inl hlt))
        have hle : t.date ≤ stop := not_lt.mp (fun hlt => h2 (Or.inr hlt))
        by_cases h3 : t.type = "transfer"
        · have hstep : pnlStep start stop (i, e) t = (i, e) := by
            unfold pnlStep
            rw [if_neg h1, if_neg h2, if_pos h3]
          have hp : pnlIncomeTx start stop t = false :=
            decide_eq_false (fun hc => hc.2.2.2.1 h3)
          have hn : pnlExpenseTx start stop t = false :=
            decide_eq_false (fun hc => hc.2.2.2.1 h3)
          rw [hstep, ih]
          simp [List.filter_cons, hp, hn]
        · by_cases h4 : 0 ≤ t.amount
          · have hstep : pnlStep start stop (i, e) t = (i + t.amount, e) := by
              unfold pnlStep
              rw [if_neg h1, if_neg h2, if_neg h3, if_pos h4]
            have hp : pnlIncomeTx start stop t = true :=
              decide_eq_true ⟨h1, hge, hle, h3, h4⟩
            have hn : pnlExpenseTx start stop t = false :=
              decide_eq_false (fun hc => absurd hc.2.2.2.2 (not_lt.mpr h4))
            rw [hstep, ih]
            simp [List.filter_cons, hp, hn, add_assoc]
          · have hstep : pnlStep start stop (i, e) t = (i, e + |t.amount|) := by
              unfold pnlStep
              rw [if_neg h1, if_neg h2, if_neg h3, if_neg h4]
            have hp : pnlIncomeTx start stop t = false :=
              decide_eq_false (fun hc => h4 hc.2.2.2.2)
            have hn : pnlExpenseTx start stop t = true :=
              decide_eq_true ⟨h1, hge, hle, h3, not_le.mp h4⟩
            rw [hstep, ih]
            simp [List.filter_cons, hp, hn, add_assoc]

lemma filter_income_absorb (start stop : String) (txs : List Transaction) :
    (txs.filter (fun t => decide (t.type ≠ "transfer"))).filter (pnlIncomeTx start stop)
      = txs.filter (pnlIncomeTx start stop) := by
  rw [List.filter_filter]
  apply List.filter_congr
  intro a _
  by_cases h : a.type = "transfer"
  · have hfa : pnlIncomeTx start stop a = false :=
      decide_eq_false (fun hc => hc.2.2.2.1 h)
    simp [hfa]
  · simp [h]

lemma filter_expense_absorb (start stop : String) (txs : List Transaction) :
    (txs.filter (fun t => decide (t.type ≠ "transfer"))).filter (pnlExpenseTx start stop)
      = txs.filter (pnlExpenseTx start stop) := by
  rw [List.filter_filter]
  apply List.filter_congr
  intro a _
  by_cases h : a.type = "transfer"
  · have hfa : pnlExpenseTx start stop a = false :=
      decide_eq_false (fun hc => hc.2.2.2.1 h)
    simp [hfa]
  · simp [h]

/-! ## Claim theorems -/

/-- Claim C2: computeTradeStats restricts to the period's trades, sorts them
by date ascending (stably on ties), and computes maxDrawdownR in a single
pass equal to the running minimum, over prefixes of the sorted R sequence, of
(cum − peak), with peak the running maximum of cum starting at 0 and the
minimum starting at 0; the dd accumulator is monotonically non-increasing
along the pass; and for the rMultiple sequence [-1, -1, +3] in date order the
result is maxDrawdownR = -2. -/
theorem c2_computeTradeStats_drawdown :
    (∀ (start stop : String) (trades : List Trade),
      (computeTradeStats start stop trades).total = (monthTrades start stop trades).length
      ∧ (computeTradeStats start stop trades).maxDrawdownR
          = ddSpec ((sortByDate (monthTrades start stop trades)).map (fun t => t.rMultiple))
      ∧ (sortByDate (monthTrades start stop trades)).Pairwise (fun a b => a.date ≤ b.date)
      ∧ (sortByDate (monthTrades start stop trades)).Perm (monthTrades start stop trades)
      ∧ (∀ d : String,
          (sortByDate (monthTrades start stop trades)).filter (fun u => decide (u.date = d))
            = (monthTrades start stop trades).filter (fun u => decide (u.date = d))))
    ∧ (∀ l1 l2 : List ℚ,
        ((l1 ++ l2).foldl ddStep (0, 0, 0)).2.2 ≤ (l1.foldl ddStep (0, 0, 0)).2.2)
    ∧ (computeTradeStats ("2025-01-01") ("2025-01-31")
        [⟨"t1", "2025-01-05", "loss", -1⟩, ⟨"t2", "2025-01-10", "loss", -1⟩,
         ⟨"t3", "2025-01-20", "win", 3⟩]).maxDrawdownR = -2 := by
  refine ⟨?_, ?_, ?_⟩
  · intro start stop trades
    refine ⟨rfl, ?_, sortByDate_pairwise _, sortByDate_perm _, fun d => sortByDate_filter _ d⟩
    have h1 := ddFold_eq ((sortByDate (monthTrades start stop trades)).map (fun t => t.rMultiple))
    rw [List.foldl_map] at h1
    show ((sortByDate (monthTrades start stop trades)).foldl
        (fun s t => ddStep s t.rMultiple) (0, 0, 0)).2.2 = _
    rw [h1]
  · intro l1 l2
    rw [List.foldl_append]
    exact ddFold_dd_le l2 _
  · with_unfolding_all rfl

/-- Claim C4: computeMonthlyPnl counts exactly the dated, in-period,
non-transfer transactions — non-negative amounts into income, absolute
values of negative amounts into expense — with net = income − expense, and
transfer-typed rows contribute to neither total (removing them leaves the
result unchanged). -/
theorem c4_computeMonthlyPnl (start stop : String) (txs : List Transaction) :
    (computeMonthlyPnl start stop txs).income
        = ((txs.filter (pnlIncomeTx start stop)).map (fun t => t.amount)).sum
    ∧ (computeMonthlyPnl start stop txs).expense
        = ((txs.filter (pnlExpenseTx start stop)).map (fun t => |t.amount|)).sum
    ∧ (computeMonthlyPnl start stop txs).net
        = (computeMonthlyPnl start stop txs).income
          - (computeMonthlyPnl start stop txs).expense
    ∧ (∀ t ∈ txs.filter (pnlIncomeTx start stop), t.type ≠ "transfer")
    ∧ (∀ t ∈ txs.filter (pnlExpenseTx start stop), t.type ≠ "transfer")
    ∧ computeMonthlyPnl start stop (txs.filter (fun t => decide (t.type ≠ "transfer")))
        = computeMonthlyPnl start stop txs := by
  have hfold := pnl_foldl start stop txs 0 0
  refine ⟨?_, ?_, rfl, ?_, ?_, ?_⟩
  · show (txs.foldl (pnlStep start stop) (0, 0)).1 = _
    rw [hfold]
    simp
  · show (txs.foldl (pnlStep start stop) (0, 0)).2 = _
    rw [hfold]
    simp
  · intro t ht
    exact (of_decide_eq_true (List.mem_filter.mp ht).2).2.2.2.1
  · intro t ht
    exact (of_decide_eq_true (List.mem_filter.mp ht).2).2.2.2.1
  · simp only [computeMonthlyPnl]
    rw [pnl_foldl, pnl_foldl, filter_income_absorb, filter_expense_absorb]

/-- Claim C10: a transaction whose accountId matches no stored account still
adds its amount to actualCash but never to cashInBank; cashInBank counts
exactly the bank accounts' starting balances plus the transactions whose
accountId resolves (via find) to an account of bank type; the aggregation is
a total function, so the pass completes on dangling references. -/
theorem c10_dangling_account (today : Int) (cfg : Config) (accounts : List Account)
    (txs : List Transaction) (debts : List Debt) (positions : List Position)
    (t : Transaction) (h : ∀ a ∈ accounts, a.id ≠ t.accountId) :
    (computeBalances today cfg accounts (t :: txs) debts positions).actualCash
        = (computeBalances today cfg accounts txs debts positions).actualCash + t.amount
    ∧ (computeBalances today cfg accounts (t :: txs) debts positions).cashInBank
        = (computeBalances today cfg accounts txs debts positions).cashInBank
    ∧ bankResolved accounts t = false
    ∧ (computeBalances today cfg accounts txs debts positions).cashInBank
        = ((accounts.filter (fun a => decide (a.type = "Banka"))).map
            (fun a => a.startingBalance)).sum
          + ((txs.filter (bankResolved accounts)).map (fun tx => tx.amount)).sum := by
  have hfind : accounts.find? (fun a => decide (a.id = t.accountId)) = none :=
    List.find?_eq_none.mpr (fun a ha hd => h a ha (of_decide_eq_true hd))
  have hbank : bankResolved accounts t = false := by
    unfold bankResolved
    rw [hfind]
  have hac : ∀ (txs' : List Transaction),
      (computeBalances today cfg accounts txs' debts positions).actualCash
        = (accounts.map (fun a => a.startingBalance)).sum
          + (txs'.map (fun tx => tx.amount)).sum := fun _ => rfl
  have hcb : ∀ (txs' : List Transaction),
      (computeBalances today cfg accounts txs' debts positions).cashInBank
        = ((accounts.filter (fun a => decide (a.type = "Banka"))).map
            (fun a => a.startingBalance)).sum
          + ((txs'.filter (bankResolved accounts)).map (fun tx => tx.amount)).sum :=
    fun _ => rfl
  refine ⟨?_, ?_, hbank, hcb txs⟩
  · rw [hac, hac, List.map_cons, List.sum_cons]
    ring
  · rw [hcb, hcb, List.filter_cons, hbank]
    simp

/-- Claim C1: expectedCash adds to actualCash exactly the amounts of the
due-within-horizon open receivables whose (defaulted) confidence reaches
minConfidence; riskAdjustedCash adds amount × clamp(confidence/100, 0, 1)
over all due-within-horizon open receivables and does not depend on
minConfidence at all; for one open receivable with amount 200, confidence 50
due within the horizon and minConfidence 60, riskAdjustedCash is
actualCash + 100 and expectedCash is actualCash + 0. -/
theorem c1_computeBalances_projections :
    (∀ (today : Int) (cfg : Config) (accounts : List Account) (txs : List Transaction)
        (debts : List Debt) (positions : List Position),
      (computeBalances today cfg accounts txs debts positions).expectedCash
          = (computeBalances today cfg accounts txs debts positions).actualCash
            + (((dueWithinOf (horizonMs today cfg.horizonDays) debts).filter
                (fun d => decide (cfg.includeConfidenceMin ≤ effConfidence d))).map
                (fun d => d.amount)).sum
      ∧ (computeBalances today cfg accounts txs debts positions).riskAdjustedCash
          = (computeBalances today cfg accounts txs debts positions).actualCash
            + ((dueWithinOf (horizonMs today cfg.horizonDays) debts).map
                (fun d => d.amount * clamp (effConfidence d / 100) 0 1)).sum)
    ∧ (∀ (today hd : Int) (m1 m2 : ℚ) (accounts : List Account) (txs : List Transaction)
        (debts : List Debt) (positions : List Position),
      (computeBalances today ⟨hd, m1⟩ accounts txs debts positions).riskAdjustedCash
        = (computeBalances today ⟨hd, m2⟩ accounts txs debts positions).riskAdjustedCash)
    ∧ (∀ (accounts : List Account) (txs : List Transaction),
      (computeBalances 0 ⟨30, 60⟩ accounts txs
          [⟨"d1", "receivable", "open", 200, JsDateValue.valid 86400000, some 50⟩]
          []).riskAdjustedCash
        = (computeBalances 0 ⟨30, 60⟩ accounts txs
          [⟨"d1", "receivable", "open", 200, JsDateValue.valid 86400000, some 50⟩]
          []).actualCash + 100
      ∧ (computeBalances 0 ⟨30, 60⟩ accounts txs
          [⟨"d1", "receivable", "open", 200, JsDateValue.valid 86400000, some 50⟩]
          []).expectedCash
        = (computeBalances 0 ⟨30, 60⟩ accounts txs
          [⟨"d1", "receivable", "open", 200, JsDateValue.valid 86400000, some 50⟩]
          []).actualCash + 0) := by
  have hexp : ∀ (today : Int) (cfg : Config) (accounts : List Account)
      (txs : List Transaction) (debts : List Debt) (positions : List Position),
      (computeBalances today cfg accounts txs debts positions).expectedCash
        = (computeBalances today cfg accounts txs debts positions).actualCash
          + (((dueWithinOf (horizonMs today cfg.horizonDays) debts).filter
              (fun d => decide (cfg.includeConfidenceMin ≤ effConfidence d))).map
              (fun d => d.amount)).sum := fun _ _ _ _ _ _ => rfl
  have hrisk : ∀ (today : Int) (cfg : Config) (accounts : List Account)
      (txs : List Transaction) (debts : List Debt) (positions : List Position),
      (computeBalances today cfg accounts txs debts positions).riskAdjustedCash
        = (computeBalances today cfg accounts txs debts positions).actualCash
          + ((dueWithinOf (horizonMs today cfg.horizonDays) debts).map
              (fun d => d.amount * clamp (effConfidence d / 100) 0 1)).sum :=
    fun _ _ _ _ _ _ => rfl
  refine ⟨fun today cfg a t d p => ⟨hexp today cfg a t d p, hrisk today cfg a t d p⟩,
    fun _ _ _ _ _ _ _ _ => rfl, ?_⟩
  intro accounts txs
  have hsum1 : ((dueWithinOf (horizonMs 0 (30 : Int))
      [⟨"d1", "receivable", "open", 200, JsDateValue.valid 86400000, some 50⟩]).map
      (fun d => d.amount * clamp (effConfidence d / 100) 0 1)).sum = (100 : ℚ) := by
    with_unfolding_all rfl
  have hsum2 : (((dueWithinOf (horizonMs 0 (30 : Int))
      [⟨"d1", "receivable", "open", 200, JsDateValue.valid 86400000, some 50⟩]).filter
      (fun d => decide ((60 : ℚ) ≤ effConfidence d))).map
      (fun d => d.amount)).sum = (0 : ℚ) := by
    with_unfolding_all rfl
  constructor
  · rw [hrisk, hsum1]
  · rw [hexp, hsum2]

/-- Claim C5: in computeBalances' horizon filter, an open receivable with a
null due date is included unconditionally, and one with a valid due date is
included iff that date is at most today + horizonDays; riskAdjustedCash
ranges exactly over the open receivables passing this filter. -/
theorem c5_dueWithin_null_always_included (horizon : Int) (d : Debt) :
    (d.dueDate = JsDateValue.null → dueWithinPred horizon d = true)
    ∧ (∀ ms : Int, d.dueDate = JsDateValue.valid ms →
        (dueWithinPred horizon d = true ↔ ms ≤ horizon))
    ∧ (∀ (today : Int) (cfg : Config) (accounts : List Account) (txs : List Transaction)
        (debts : List Debt) (positions : List Position),
      (computeBalances today cfg accounts txs debts positions).riskAdjustedCash
        = (computeBalances today cfg accounts txs debts positions).actualCash
          + (((openReceivablesOf debts).filter
              (dueWithinPred (horizonMs today cfg.horizonDays))).map
              (fun d0 => d0.amount * clamp (effConfidence d0 / 100) 0 1)).sum) := by
  refine ⟨?_, ?_, fun _ _ _ _ _ _ => rfl⟩
  · intro h
    unfold dueWithinPred
    rw [h]
  · intro ms h
    unfold dueWithinPred
    rw [h]
    exact decide_eq_true_iff

theorem c5_witness :
    dueWithinPred 0 ⟨"w1", "receivable", "open", 10, JsDateValue.null, none⟩ = true
    ∧ dueWithinPred 0 ⟨"w2", "receivable", "open", 10, JsDateValue.valid 1, none⟩ = false := by
  constructor
  · exact (c5_dueWithin_null_always_included 0 _).1 rfl
  · have hiff := (c5_dueWithin_null_always_included 0
      ⟨"w2", "receivable", "open", 10, JsDateValue.valid 1, none⟩).2.1 1 rfl
    rcases Bool.eq_false_or_eq_true
      (dueWithinPred 0 ⟨"w2", "receivable", "open", 10, JsDateValue.valid 1, none⟩) with ht | hf
    · exact absurd (hiff.mp ht) (by decide)
    · exact hf

/-- Claim C7: computeTradeStats' winRate is wins/total×100 when total > 0 and
0 when total = 0, and goalProgress of a goal of any recognized type with a
zero target is 0 (not undefined), because of the explicit zero-checks. -/
theorem c7_no_division_by_zero :
    (∀ (start stop : String) (trades : List Trade),
      ((computeTradeStats start stop trades).total = 0 →
        (computeTradeStats start stop trades).winRate = 0)
      ∧ (0 < (computeTradeStats start stop trades).total →
        (computeTradeStats start stop trades).winRate
          = ((computeTradeStats start stop trades).wins : ℚ)
            / ((computeTradeStats start stop trades).total : ℚ) * 100))
    ∧ (∀ (g : Goal) (b : BalanceReport) (m : MonthlyPnl),
        g.type ∈ (["cashInBank", "actualCash", "investments", "netWorth",
          "monthlyExpenseCap"] : List String) →
        g.targetValue = some 0 →
        goalProgress g b m = some 0) := by
  constructor
  · intro start stop trades
    constructor
    · intro h
      have h0 : (monthTrades start stop trades).length = 0 := h
      show (if (monthTrades start stop trades).length = 0 then (0 : ℚ) else _) = 0
      rw [if_pos h0]
    · intro h
      have h0 : ¬ (monthTrades start stop trades).length = 0 :=
        Nat.pos_iff_ne_zero.mp h
      show (if (monthTrades start stop trades).length = 0 then (0 : ℚ) else _) = _
      rw [if_neg h0]
      rfl
  · intro g b m htype htv
    simp only [List.mem_cons, List.mem_singleton] at htype
    rcases htype with h | h | h | h | h | h
    · simp [goalProgress, goalCurrent, h, htv]
    · simp [goalProgress, goalCurrent, h, htv]
    · simp [goalProgress, goalCurrent, h, htv]
    · simp [goalProgress, goalCurrent, h, htv]
    · simp [goalProgress, goalCurrent, h, htv]
    · simp at h

theorem c7_witness :
    (computeTradeStats ("2025-01-01") ("2025-01-31") ([] : List Trade)).winRate = 0
    ∧ goalProgress ⟨"g1", "goal", "actualCash", some 0, "active", JsDateValue.null⟩
        (computeBalances 0 ⟨30, 60⟩ [] [] [] [])
        (computeMonthlyPnl ("2025-01-01") ("2025-01-31") []) = some 0 := by
  constructor
  · exact (c7_no_division_by_zero.1 ("2025-01-01") ("2025-01-31") []).1 rfl
  · exact c7_no_division_by_zero.2 _ _ _ (by decide) rfl

/-! ## Spec-side characterization of renderAlerts (§4.4) -/

/-- The alert a qualifying goal produces: a warning for monthlyExpenseCap, a
notice for every other type, labelled with the goal's name. -/
def alertOf (g : Goal) : AlertKind × String :=
  (if g.type = "monthlyExpenseCap" then AlertKind.warning else AlertKind.notice, g.name)

/-- A goal that produces an alert: not archived, not expired, and with a
computed percentage of at least 80. -/
def goalQualifies (now : Int) (b : BalanceReport) (m : MonthlyPnl) (g : Goal) : Bool :=
  decide (¬ g.status = "archived") && !(goalExpired now g) &&
    (match goalProgress g b m with
     | some pct => decide ((80 : ℚ) ≤ pct)
     | none => false)

lemma alert_foldl (now : Int) (b : BalanceReport) (m : MonthlyPnl)
    (goals : List Goal) (acc : List (AlertKind × String)) :
    goals.foldl (alertStep now b m) acc
      = acc ++ (goals.filter (goalQualifies now b m)).map alertOf := by
  induction goals generalizing acc with
  | nil => simp
  | cons g gs ih =>
    rw [List.foldl_cons]
    by_cases h1 : g.status = "archived"
    · have hstep : alertStep now b m acc g = acc := by
        unfold alertStep
        rw [if_pos h1]
      have hq : goalQualifies now b m g = false := by simp [goalQualifies, h1]
      rw [hstep, ih]
      simp [List.filter_cons, hq]
    · cases h2 : goalExpired now g with
      | true =>
        have hstep : alertStep now b m acc g = acc := by
          unfold alertStep
          rw [if_neg h1, if_pos h2]
        have hq : goalQualifies now b m g = false := by simp [goalQualifies, h2]
        rw [hstep, ih]
        simp [List.filter_cons, hq]
      | false =>
        cases hp : goalProgress g b m with
        | none =>
          have hstep : alertStep now b m acc g = acc := by
            unfold alertStep
            rw [if_neg h1, if_neg (by simp [h2]), hp]
          have hq : goalQualifies now b m g = false := by simp [goalQualifies, hp]
          rw [hstep, ih]
          simp [List.filter_cons, hq]
        | some pct =>
          by_cases h3 : (80 : ℚ) ≤ pct
          · have hq : goalQualifies now b m g = true := by
              simp [goalQualifies, h1, h2, hp, h3]
            by_cases h4 : g.type = "monthlyExpenseCap"
            · have hstep : alertStep now b m acc g
                  = acc ++ [(AlertKind.warning, g.name)] := by
                unfold alertStep
                rw [if_neg h1, if_neg (by simp [h2]), hp]
                simp only [if_pos h4, if_pos h3]
              have halert : alertOf g = (AlertKind.warning, g.name) := by
                simp [alertOf, h4]
              rw [hstep, ih]
              simp [List.filter_cons, hq, halert, List.append_assoc]
            · have hstep : alertStep now b m acc g
                  = acc ++ [(AlertKind.notice, g.name)] := by
                unfold alertStep
                rw [if_neg h1, if_neg (by simp [h2]), hp]
                simp only [if_neg h4, if_neg (not_lt.mpr h3)]
              have halert : alertOf g = (AlertKind.notice, g.name) := by
                simp [alertOf, h4]
              rw [hstep, ih]
              simp [List.filter_cons, hq, halert, List.append_assoc]
          · have hq : goalQualifies now b m g = false := by
              simp [goalQualifies, hp, h3]
            by_cases h4 : g.type = "monthlyExpenseCap"
            · have hstep : alertStep now b m acc g = acc := by
                unfold alertStep
                rw [if_neg h1, if_neg (by simp [h2]), hp]
                simp only [if_pos h4, if_neg h3]
              rw [hstep, ih]
              simp [List.filter_cons, hq]
            · have hstep : alertStep now b m acc g = acc := by
                unfold alertStep
                rw [if_neg h1, if_neg (by simp [h2]), hp]
                simp only [if_neg h4, if_pos (not_le.mp h3)]
              rw [hstep, ih]
              simp [List.filter_cons, hq]

/-- Claim C8: the alert pass considers only non-archived goals whose end date
is null or not in the past, alerts exactly on computed percentage ≥ 80
(warning for monthlyExpenseCap, notice otherwise), and presents at most the
first 3 qualifying alerts in goal iteration order with no other sorting. -/
theorem c8_renderAlerts (now : Int) (b : BalanceReport) (m : MonthlyPnl)
    (goals : List Goal) :
    renderAlertsList now b m goals = (goals.filter (goalQualifies now b m)).map alertOf
    ∧ displayedAlerts now b m goals
        = ((goals.filter (goalQualifies now b m)).map alertOf).take 3
    ∧ (∀ g : Goal, goalQualifies now b m g = true ↔
        (g.status ≠ "archived" ∧ goalExpired now g = false ∧
          ∃ pct : ℚ, goalProgress g b m = some pct ∧ (80 : ℚ) ≤ pct))
    ∧ (∀ g : Goal, g.endDate = JsDateValue.null → goalExpired now g = false)
    ∧ (∀ (g : Goal) (ms : Int), g.endDate = JsDateValue.valid ms →
        (goalExpired now g = false ↔ ¬ ms < now))
    ∧ (∀ g : Goal, (alertOf g).1
        = (if g.type = "monthlyExpenseCap" then AlertKind.warning
           else AlertKind.notice)) := by
  have hlist : renderAlertsList now b m goals
      = (goals.filter (goalQualifies now b m)).map alertOf := by
    have h := alert_foldl now b m goals []
    simpa using h
  refine ⟨hlist, ?_, ?_, ?_, ?_, fun g => rfl⟩
  · show (renderAlertsList now b m goals).take 3 = _
    rw [hlist]
  · intro g
    by_cases h1 : g.status = "archived"
    · simp [goalQualifies, h1]
    · cases h2 : goalExpired now g with
      | true => simp [goalQualifies, h2]
      | false =>
        cases hp : goalProgress g b m with
        | none => simp [goalQualifies, h1, h2, hp]
        | some pct => simp [goalQualifies, h1, h2, hp]
  · intro g h
    unfold goalExpired
    rw [h]
  · intro g ms h
    unfold goalExpired
    rw [h]
    show decide (ms < now) = false ↔ ¬ ms < now
    exact decide_eq_false_iff_not

theorem c8_witness :
    displayedAlerts 0 (computeBalances 0 ⟨30, 60⟩ [] [] [] [])
      (computeMonthlyPnl ("2025-01-01") ("2025-01-31")
        [⟨"t1", "normal", "2025-01-05", "a1", -85⟩])
      [⟨"g1", "cap", "monthlyExpenseCap", some 100, "active", JsDateValue.null⟩,
       ⟨"g2", "old", "monthlyExpenseCap", some 100, "active", JsDateValue.valid (-5)⟩]
      = [(AlertKind.warning, "cap")]
    ∧ goalExpired 0 ⟨"g1", "cap", "monthlyExpenseCap", some 100, "active",
        JsDateValue.null⟩ = false := by
  constructor
  · rw [(c8_renderAlerts 0 (computeBalances 0 ⟨30, 60⟩ [] [] [] [])
      (computeMonthlyPnl ("2025-01-01") ("2025-01-31")
        [⟨"t1", "normal", "2025-01-05", "a1", -85⟩])
      [⟨"g1", "cap", "monthlyExpenseCap", some 100, "active", JsDateValue.null⟩,
       ⟨"g2", "old", "monthlyExpenseCap", some 100, "active", JsDateValue.valid (-5)⟩]).2.1]
    with_unfolding_all rfl
  · exact (c8_renderAlerts 0 (computeBalances 0 ⟨30, 60⟩ [] [] [] [])
      (computeMonthlyPnl ("2025-01-01") ("2025-01-31") []) []).2.2.2.1 _ rfl

/-! ## Round-trip lemmas for export / import -/

lemma foldl_putRecord {α : Type} (key : α → String) :
    ∀ (l acc : List α), ((acc ++ l).map key).Nodup →
      l.foldl (putRecord key) acc = acc ++ l := by
  intro l
  induction l with
  | nil =>
    intro acc h
    simp
  | cons x xs ih =>
    intro acc h
    have hnotin : ∀ y ∈ acc, ¬ key y = key x := by
      intro y hy hk
      rw [List.map_append] at h
      rcases List.nodup_append.mp h with ⟨ha, hb, hdisj⟩
      exact hdisj (List.mem_map_of_mem key hy)
        (by rw [hk]; exact List.mem_cons_self _ _)
    have hany : acc.any (fun y => decide (key y = key x)) = false :=
      List.any_eq_false.mpr (fun y hy => by simpa using hnotin y hy)
    have hput : putRecord key acc x = acc ++ [x] := by
      unfold putRecord
      rw [if_neg (by simp [hany])]
    rw [List.foldl_cons, hput, ih (acc ++ [x]) (by simpa using h)]
    simp

lemma importCollection_id {α : Type} (key : α → String) (l : List α)
    (h : (l.map key).Nodup) : importCollection key l = l := by
  unfold importCollection
  have := foldl_putRecord key l [] (by simpa using h)
  simpa using this

/-- Claim C9: exporting all collections and importing the unmodified dump
(clear then re-insert every record) restores the store exactly, so the
computeBalances output after the round trip is identical field-for-field. -/
theorem c9_export_import_roundtrip (s : Store) (nowMs : Int) (h : StoreKeysNodup s) :
    importAll (exportAll s nowMs) = s
    ∧ (∀ (today : Int) (cfg : Config),
        computeBalancesStore today cfg (importAll (exportAll s nowMs))
          = computeBalancesStore today cfg s) := by
  rcases s with ⟨a, t, c, ins, p, d, tr, g, sn, me⟩
  obtain ⟨h1, h2, h3, h4, h5, h6, h7, h8, h9, h10⟩ := h
  have key : importAll (exportAll (Store.mk a t c ins p d tr g sn me) nowMs)
      = Store.mk a t c ins p d tr g sn me := by
    show Store.mk (importCollection (fun x => x.id) a) (importCollection (fun x => x.id) t)
        (importCollection (fun x => x.id) c) (importCollection (fun x => x.id) ins)
        (importCollection (fun x => x.id) p) (importCollection (fun x => x.id) d)
        (importCollection (fun x => x.id) tr) (importCollection (fun x => x.id) g)
        (importCollection (fun x => x.id) sn) (importCollection (fun x => x.key) me)
        = Store.mk a t c ins p d tr g sn me
    rw [importCollection_id _ a h1, importCollection_id _ t h2,
      importCollection_id _ c h3, importCollection_id _ ins h4,
      importCollection_id _ p h5, importCollection_id _ d h6,
      importCollection_id _ tr h7, importCollection_id _ g h8,
      importCollection_id _ sn h9, importCollection_id _ me h10]
  exact ⟨key, fun today cfg => by rw [key]⟩

theorem c9_witness :
    importAll (exportAll ⟨[⟨"a1", "Banka", 100⟩],
        [⟨"t1", "normal", "2025-01-05", "a1", -30⟩], [], [], [],
        [⟨"d1", "receivable", "open", 200, JsDateValue.null, some 50⟩],
        [], [], [], [⟨"baseCurrency", "EUR"⟩]⟩ 5)
      = ⟨[⟨"a1", "Banka", 100⟩],
        [⟨"t1", "normal", "2025-01-05", "a1", -30⟩], [], [], [],
        [⟨"d1", "receivable", "open", 200, JsDateValue.null, some 50⟩],
        [], [], [], [⟨"baseCurrency", "EUR"⟩]⟩
    ∧ computeBalancesStore 0 ⟨30, 60⟩ (importAll (exportAll ⟨[⟨"a1", "Banka", 100⟩],
        [⟨"t1", "normal", "2025-01-05", "a1", -30⟩], [], [], [],
        [⟨"d1", "receivable", "open", 200, JsDateValue.null, some 50⟩],
        [], [], [], [⟨"baseCurrency", "EUR"⟩]⟩ 5))
      = computeBalancesStore 0 ⟨30, 60⟩ ⟨[⟨"a1", "Banka", 100⟩],
        [⟨"t1", "normal", "2025-01-05", "a1", -30⟩], [], [], [],
        [⟨"d1", "receivable", "open", 200, JsDateValue.null, some 50⟩],
        [], [], [], [⟨"baseCurrency", "EUR"⟩]⟩ := by
  have h := c9_export_import_roundtrip ⟨[⟨"a1", "Banka", 100⟩],
    [⟨"t1", "normal", "2025-01-05", "a1", -30⟩], [], [], [],
    [⟨"d1", "receivable", "open", 200, JsDateValue.null, some 50⟩],
    [], [], [], [⟨"baseCurrency", "EUR"⟩]⟩ 5
    (by refine ⟨?_, ?_, ?_, ?_, ?_, ?_, ?_, ?_, ?_, ?_⟩ <;> decide)
  exact ⟨h.1, h.2 0 ⟨30, 60⟩⟩

/-- Claim C6 counterexample: a number-typed non-finite input is returned
unchanged by parseAmount (the `typeof s === "number"` branch has no
finiteness check), so NaN does not normalize to 0 and the result is not a
finite number. -/
theorem c6_counterexample :
    parseAmountJS (Sum.inl JsNumber.nan) = JsNumber.nan
    ∧ ¬ ∃ q : ℚ, parseAmountJS (Sum.inl JsNumber.nan) = JsNumber.finite q := by
  refine ⟨rfl, ?_⟩
  rintro ⟨q, hq⟩
  simp [parseAmountJS] at hq

/-- Claim C6 amended: every string-typed input yields a finite number
(unparseable input normalizes to 0 inside parseAmount), while a number-typed
input is returned unchanged, so non-finite numbers pass through. -/
theorem c6_amended :
    (∀ s : String, parseAmountJS (Sum.inr s) = JsNumber.finite (parseAmount s))
    ∧ (∀ n : JsNumber, parseAmountJS (Sum.inl n) = n) :=
  ⟨fun _ => rfl, fun _ => rfl⟩

/-! ## List lemmas for the parseAmount separator analysis -/

lemma aux_cons (c x : Char) (xs : List Char) :
    splitOnCharAux c (x :: xs)
      = (if x = c then ([], (splitOnCharAux c xs).1 :: (splitOnCharAux c xs).2)
         else (x :: (splitOnCharAux c xs).1, (splitOnCharAux c xs).2)) := by
  rw [splitOnCharAux]

lemma aux_no_sep (c : Char) (l : List Char) (h : c ∉ l) :
    splitOnCharAux c l = (l, []) := by
  induction l with
  | nil => rfl
  | cons x xs ih =>
    have hx : ¬ x = c := fun he => h (he ▸ List.mem_cons_self x xs)
    have hxs : c ∉ xs := fun hm => h (List.mem_cons_of_mem x hm)
    rw [aux_cons, if_neg hx, ih hxs]

lemma aux_decomp (c : Char) (u v : List Char) (hv : c ∉ v) :
    splitOnCharAux c (u ++ c :: v)
      = ((splitOnCharAux c u).1, (splitOnCharAux c u).2 ++ [v]) := by
  induction u with
  | nil =>
    rw [List.nil_append, aux_cons, if_pos rfl, aux_no_sep c v hv]
    rfl
  | cons x xs ih =>
    rw [List.cons_append, aux_cons, ih, aux_cons]
    by_cases hx : x = c
    · rw [if_pos hx, if_pos hx]
      rfl
    · rw [if_neg hx, if_neg hx]

lemma splitOnChar_decomp (c : Char) (u v : List Char) (hv : c ∉ v) :
    splitOnChar c (u ++ c :: v) = splitOnChar c u ++ [v] := by
  unfold splitOnChar
  rw [aux_decomp c u v hv]
  rfl

lemma aux_flatten (c : Char) (u : List Char) :
    (splitOnCharAux c u).1 ++ (splitOnCharAux c u).2.flatten
      = u.filter (fun x => !(decide (x = c))) := by
  induction u with
  | nil => rfl
  | cons x xs ih =>
    rw [aux_cons, List.filter_cons]
    by_cases hx : x = c
    · rw [if_pos hx, show (!(decide (x = c))) = false from by rw [decide_eq_true hx]; rfl]
      simp only [Bool.false_eq_true, if_false]
      show [] ++ ((splitOnCharAux c xs).1 :: (splitOnCharAux c xs).2).flatten = _
      rw [List.nil_append, List.flatten_cons, ih]
    · rw [if_neg hx, show (!(decide (x = c))) = true from by rw [decide_eq_false hx]; rfl,
        if_pos rfl]
      show (x :: (splitOnCharAux c xs).1) ++ (splitOnCharAux c xs).2.flatten = _
      rw [List.cons_append, ih]

lemma flatten_splitOnChar (c : Char) (u : List Char) :
    (splitOnChar c u).flatten = u.filter (fun x => !(decide (x = c))) := by
  unfold splitOnChar
  rw [List.flatten_cons]
  exact aux_flatten c u

lemma getLastD_concat' {α : Type} (l : List α) (x d : α) :
    (l ++ [x]).getLastD d = x := by
  induction l generalizing d with
  | nil => rfl
  | cons y ys ih =>
    rw [List.cons_append, List.getLastD_cons, ih]

lemma lastIndexOf_cons (c x : Char) (xs : List Char) :
    lastIndexOf c (x :: xs)
      = (if 0 ≤ lastIndexOf c xs then lastIndexOf c xs + 1
         else if x = c then 0 else -1) := by
  rw [lastIndexOf]

lemma lastIndexOf_of_not_mem (c : Char) (l : List Char) (h : c ∉ l) :
    lastIndexOf c l = -1 := by
  induction l with
  | nil => rfl
  | cons x xs ih =>
    have hx : ¬ x = c := fun he => h (he ▸ List.mem_cons_self x xs)
    have hxs : c ∉ xs := fun hm => h (List.mem_cons_of_mem x hm)
    rw [lastIndexOf_cons, ih hxs, if_neg (by norm_num), if_neg hx]

lemma lastIndexOf_decomp (c : Char) (u v : List Char) (hv : c ∉ v) :
    lastIndexOf c (u ++ c :: v) = (u.length : Int) := by
  induction u with
  | nil =>
    rw [List.nil_append, lastIndexOf_cons, lastIndexOf_of_not_mem c v hv,
      if_neg (by norm_num), if_pos rfl]
    norm_num
  | cons x xs ih =>
    rw [List.cons_append, lastIndexOf_cons, ih,
      if_pos (Int.natCast_nonneg xs.length)]
    push_cast [List.length_cons]
    ring

lemma lastIndexOf_lt_length (c : Char) (l : List Char) :
    lastIndexOf c l < (l.length : Int) := by
  induction l with
  | nil => norm_num [lastIndexOf]
  | cons x xs ih =>
    rw [lastIndexOf_cons]
    by_cases h : (0 : Int) ≤ lastIndexOf c xs
    · rw [if_pos h]
      push_cast [List.length_cons]
      omega
    · rw [if_neg h]
      by_cases hx : x = c
      · rw [if_pos hx]
        push_cast [List.length_cons]
        positivity
      · rw [if_neg hx]
        push_cast [List.length_cons]
        have : (0 : Int) ≤ (xs.length : Int) := Int.natCast_nonneg _
        omega

lemma lastIndexOf_other (c' c : Char) (u v : List Char) (hne : c' ≠ c)
    (hv : c' ∉ v) : lastIndexOf c' (u ++ c :: v) = lastIndexOf c' u := by
  induction u with
  | nil =>
    rw [List.nil_append, lastIndexOf_cons, lastIndexOf_of_not_mem c' v hv,
      if_neg (by norm_num), if_neg (fun he => hne he.symm)]
    rfl
  | cons x xs ih =>
    rw [List.cons_append, lastIndexOf_cons, lastIndexOf_cons, ih]

lemma takeWhile_all_append (p : Char → Bool) (w : List Char) (c : Char)
    (r : List Char) (hw : ∀ x ∈ w, p x = true) (hc : p c = false) :
    (w ++ c :: r).takeWhile p = w := by
  induction w with
  | nil =>
    rw [List.nil_append, List.takeWhile_cons, hc]
    rfl
  | cons x xs ih =>
    rw [List.cons_append, List.takeWhile_cons, hw x (List.mem_cons_self x xs)]
    simp only [if_true]
    rw [ih (fun y hy => hw y (List.mem_cons_of_mem x hy))]

lemma dropWhile_all_append (p : Char → Bool) (w : List Char) (c : Char)
    (r : List Char) (hw : ∀ x ∈ w, p x = true) (hc : p c = false) :
    (w ++ c :: r).dropWhile p = c :: r := by
  induction w with
  | nil =>
    rw [List.nil_append, List.dropWhile_cons, hc]
    rfl
  | cons x xs ih =>
    rw [List.cons_append, List.dropWhile_cons, hw x (List.mem_cons_self x xs)]
    simp only [if_true]
    exact ih (fun y hy => hw y (List.mem_cons_of_mem x hy))

lemma exists_last_sep : ∀ (t : List Char), t.any isSep = true →
    ∃ u c v, t = u ++ c :: v ∧ isSep c = true ∧ ∀ x ∈ v, isSep x = false := by
  intro t
  induction t with
  | nil => intro h; simp at h
  | cons x xs ih =>
    intro h
    cases hxs : xs.any isSep with
    | true =>
      obtain ⟨u, c, v, heq, hc, hv⟩ := ih hxs
      exact ⟨x :: u, c, v, by rw [heq]; rfl, hc, hv⟩
    | false =>
      have hx : isSep x = true := by
        rcases List.any_eq_true.mp h with ⟨y, hy, hsep⟩
        rcases List.mem_cons.mp hy with rfl | hy'
        · exact hsep
        · exact absurd (List.any_eq_true.mpr ⟨y, hy', hsep⟩) (by rw [hxs]; simp)
      refine ⟨[], x, xs, rfl, hx, fun y hy => ?_⟩
      cases hb : isSep y with
      | false => rfl
      | true => exact absurd (List.any_eq_true.mpr ⟨y, hy, hb⟩) (by rw [hxs]; simp)

theorem c4_witness :
    (computeMonthlyPnl ("2025-01-01") ("2025-01-31")
        [⟨"t1", "normal", "2025-01-05", "a1", 40⟩]).income = 40
    ∧ (⟨"t1", "normal", "2025-01-05", "a1", 40⟩ : Transaction).type ≠ "transfer" := by
  have hf : ([⟨"t1", "normal", "2025-01-05", "a1", 40⟩] : List Transaction).filter
      (pnlIncomeTx ("2025-01-01") ("2025-01-31"))
      = [⟨"t1", "normal", "2025-01-05", "a1", 40⟩] := by
    with_unfolding_all rfl
  constructor
  · rw [(c4_computeMonthlyPnl ("2025-01-01") ("2025-01-31")
      [⟨"t1", "normal", "2025-01-05", "a1", 40⟩]).1, hf]
    with_unfolding_all rfl
  · exact (c4_computeMonthlyPnl ("2025-01-01") ("2025-01-31")
      [⟨"t1", "normal", "2025-01-05", "a1", 40⟩]).2.2.2.1 _
      (by rw [hf]; exact List.mem_cons_self _ _)

theorem c10_witness :
    (computeBalances 0 ⟨30, 60⟩ [⟨"a1", "Banka", 100⟩]
        [⟨"t9", "normal", "", "ghost", 7⟩] [] []).actualCash
      = (computeBalances 0 ⟨30, 60⟩ [⟨"a1", "Banka", 100⟩] [] [] []).actualCash + 7
    ∧ (computeBalances 0 ⟨30, 60⟩ [⟨"a1", "Banka", 100⟩]
        [⟨"t9", "normal", "", "ghost", 7⟩] [] []).cashInBank
      = (computeBalances 0 ⟨30, 60⟩ [⟨"a1", "Banka", 100⟩] [] [] []).cashInBank := by
  have h := c10_dangling_account 0 ⟨30, 60⟩ [⟨"a1", "Banka", 100⟩] [] [] []
    ⟨"t9", "normal", "", "ghost", 7⟩
    (by
      intro a ha
      rcases List.mem_singleton.mp ha with rfl
      decide)
  exact ⟨h.1, h.2.1⟩

lemma filter_notSep_eq_self (t : List Char) (h : ∀ x ∈ t, isSep x = false) :
    t.filter notSep = t :=
  List.filter_eq_self.mpr (fun x hx => by unfold notSep; rw [h x hx]; rfl)

/-- The split/pop/join computation of the source agrees, on every string,
with the spec's description: decompose the cleaned string at the last
occurrence of either separator and drop every other separator occurrence. -/
theorem parseAmount_eq_parseAmountSpec (s : String) :
    parseAmount s = parseAmountSpec s := by
  by_cases hs : s = ""
  · unfold parseAmount parseAmountSpec
    rw [if_pos hs, if_pos hs]
  · unfold parseAmount parseAmountSpec
    rw [if_neg hs, if_neg hs]
    dsimp only
    generalize s.data.filter isKept = T
    cases hany : T.any isSep with
    | false =>
      have hall : ∀ x ∈ T, isSep x = false := fun x hx => by
        cases hb : isSep x with
        | false => rfl
        | true => exact absurd (List.any_eq_true.mpr ⟨x, hx, hb⟩) (by rw [hany]; simp)
      have hdot : '.' ∉ T := fun hm => by
        have := hall _ hm
        simp [isSep] at this
      have hcomma : ',' ∉ T := fun hm => by
        have := hall _ hm
        simp [isSep] at this
      rw [lastIndexOf_of_not_mem '.' T hdot, lastIndexOf_of_not_mem ',' T hcomma,
        if_neg (lt_irrefl (-1 : Int)), if_neg (lt_irrefl (-1 : Int))]
      dsimp only
      rw [if_neg Bool.false_ne_true, filter_notSep_eq_self T hall]
    | true =>
      obtain ⟨u, c, v, hT2, hc, hv⟩ := exists_last_sep T hany
      subst hT2
      have hvdot : '.' ∉ v := fun h => by
        have := hv _ h
        simp [isSep] at this
      have hvcomma : ',' ∉ v := fun h => by
        have := hv _ h
        simp [isSep] at this
      have hvc : c ∉ v := fun h => absurd (hv _ h) (by rw [hc]; simp)
      have hsplit := splitOnChar_decomp c u v hvc
      have hlastp : (splitOnChar c (u ++ c :: v)).getLastD [] = v := by
        rw [hsplit]
        exact getLastD_concat' _ _ _
      have hdropl : (splitOnChar c (u ++ c :: v)).dropLast = splitOnChar c u := by
        rw [hsplit]
        exact List.dropLast_concat
      have hint : (splitOnChar c (u ++ c :: v)).dropLast.flatten.filter notSep
          = u.filter notSep := by
        rw [hdropl, flatten_splitOnChar, List.filter_filter]
        apply List.filter_congr
        intro x hx
        cases hns : notSep x with
        | false => simp [hns]
        | true =>
          have hxc : ¬ x = c := fun he => by
            subst he
            unfold notSep at hns
            rw [hc] at hns
            simp at hns
          simp [hns, hxc]
      have hvrev : ∀ x ∈ v.reverse, notSep x = true := fun x hx => by
        unfold notSep
        rw [hv x (List.mem_reverse.mp hx)]
        rfl
      have hcns : notSep c = false := by
        unfold notSep
        rw [hc]
        rfl
      have hrev : (u ++ c :: v).reverse = v.reverse ++ c :: u.reverse := by
        simp
      have htk : ((u ++ c :: v).reverse.takeWhile notSep).reverse = v := by
        rw [hrev, takeWhile_all_append notSep v.reverse c u.reverse hvrev hcns,
          List.reverse_reverse]
      have hdw : (((u ++ c :: v).reverse.dropWhile notSep).tail).reverse = u := by
        rw [hrev, dropWhile_all_append notSep v.reverse c u.reverse hvrev hcns,
          List.tail_cons, List.reverse_reverse]
      have hcc : c = '.' ∨ c = ',' := by
        simpa [isSep] using hc
      rcases hcc with rfl | rfl
      · have hld := lastIndexOf_decomp '.' u v hvdot
        have hlc := lastIndexOf_other ',' '.' u v (by decide) hvcomma
        have hlt := lastIndexOf_lt_length ',' u
        rw [hld, hlc, if_pos hlt]
        dsimp only
        rw [hint, hlastp, if_pos rfl, htk, hdw]
      · have hld := lastIndexOf_decomp ',' u v hvcomma
        have hlc := lastIndexOf_other '.' ',' u v (by decide) hvdot
        have hlt := lastIndexOf_lt_length '.' u
        rw [hld, hlc, if_neg (not_lt.mpr hlt.le), if_pos hlt]
        dsimp only
        rw [hint, hlastp, if_pos rfl, htk, hdw]

/-- Claim C3: parseAmount strips every character outside [0-9.,+-], treats
whichever of '.' and ',' occurs last in the cleaned string as the decimal
separator, removes all other occurrences of either character as grouping
separators (the spec-worded pipeline parseAmountSpec computes the same value
on every string), and on the reference inputs: "1.234,56" ↦ 1234.56,
"1,234.56" ↦ 1234.56, "" ↦ 0, "-12,50" ↦ -12.5. -/
theorem c3_parseAmount_separator_rule :
    (∀ s : String, parseAmount s = parseAmountSpec s)
    ∧ parseAmount ("1.234,56") = (1234.56 : ℚ)
    ∧ parseAmount ("1,234.56") = (1234.56 : ℚ)
    ∧ parseAmount ("") = 0
    ∧ parseAmount ("-12,50") = (-12.5 : ℚ) :=
  ⟨fun s => parseAmount_eq_parseAmountSpec s,
    by with_unfolding_all rfl, by with_unfolding_all rfl,
    by with_unfolding_all rfl, by with_unfolding_all rfl⟩

end LedgerZero
